import Mathlib

/-!
Verification of the partial-read engine of `aiocogeo`
(`aiocogeo/partial_reads.py` and `aiocogeo/filesystems.py`).

The Python code is shallowly embedded: numpy arrays become functions from
indices to values together with explicit shape fields, byte strings become
`List Nat`, Python ints become `Nat`/`Int`, Python floats become `ℚ`, and
the abstract collaborators (per-tile decompression, the byte store) become
function-valued fields of an environment record.  Concurrent fan-out/fan-in
(`asyncio.gather`) is modelled as a fold over the tasks in creation order;
this is faithful for the mosaic because every stitch writes a disjoint
sub-region of the shared buffer.
-/

set_option maxHeartbeats 1000000

namespace Aiocogeo

/-! ## Data model -/

/-- An image (or mask) file directory: per-tile byte offsets and byte counts,
plus the number of tiles per row (`ifd.tile_count[0]`).  Mirrors the interface
of `ImageIFD`/`MaskIFD` consumed by `partial_reads.py`. -/
structure IFD where
  TileOffsets : Nat → Nat
  TileByteCounts : Nat → Nat
  tileCount0 : Nat

/-- `TileMetadata` dataclass from `aiocogeo/partial_reads.py`. -/
structure TileMetadata where
  tlx : Nat
  tly : Nat
  width : Nat
  height : Nat
  tile_width : Nat
  tile_height : Nat
  xmin : Nat
  ymin : Nat
  xmax : Nat
  ymax : Nat
  bands : Nat
  dtype : Nat
  ovr_level : Nat
  x_coord : List ℚ
  y_coord : List ℚ

/-- A decoded tile: a `(bands, tile_height, tile_width)` numpy array,
optionally a `np.ma.masked_array` carrying a mask (numpy convention:
mask entry `true` means the pixel is masked out). -/
structure TileArr where
  data : Nat → Nat → Nat → Int
  mask : Option (Nat → Nat → Nat → Bool)

/-- The fused mosaic buffer: a `(bands, rows, cols)` numpy array with a
`dtype` tag, optionally a `np.ma.masked_array` (field `mask`). -/
@[ext] structure Mosaic where
  bands : Nat
  rows : Nat
  cols : Nat
  dtype : Nat
  data : Nat → Nat → Nat → Int
  mask : Option (Nat → Nat → Nat → Bool)

/-- The environment a partial read runs in: the byte store (`file` gives the
byte at each absolute position, per the storage collaborator contract that a
range request returns exactly the requested bytes), the decompression
collaborators of the image IFD (`_decompress`, `_decompress_mask`), the mask
flag and nodata value of the source, and the image/mask IFD lists. -/
structure ReadEnv where
  file : Nat → Nat
  decode : List Nat → (Nat → Nat → Nat → Int)
  decodeMask : List Nat → (Nat → Nat → Bool)
  isMasked : Bool
  nodata : Option Int
  ifds : Nat → IFD
  maskIfds : Nat → IFD

/-- `PartialReadBase._add_mask`: a mask is attached iff the image has an
internal mask or a nodata value is declared. -/
def ReadEnv.add_mask (env : ReadEnv) : Bool :=
  if env.isMasked then true
  else if env.nodata.isSome then true
  else false

/-! ## Bounds intersection (`PartialReadBase._intersect_bounds`) -/

/-- A `(left, bottom, right, top)` bounding box. -/
structure BBox where
  left : ℚ
  bottom : ℚ
  right : ℚ
  top : ℚ

/-- `PartialReadBase._intersect_bounds`. -/
def intersect_bounds (read_bounds cog_bounds : BBox) : Bool :=
  decide (cog_bounds.left < read_bounds.right)
    && decide (cog_bounds.right > read_bounds.left)
    && decide (cog_bounds.top > read_bounds.bottom)
    && decide (cog_bounds.bottom < read_bounds.top)

/-! ## Overview selection (`PartialReadBase._get_overview_level`) -/

/-- `available_resolutions` of `_get_overview_level`: native resolution
followed by native times each decimation factor. -/
def available_resolutions (src_res : ℚ) (overviews : List ℚ) : List ℚ :=
  src_res :: overviews.map (fun decim => src_res * decim)

/-- The per-level threshold of `_get_overview_level`:
`res[i] - (res[i] - res[i-1]) * (percentage / 100)`. -/
def ovrThreshold (res : List ℚ) (p : ℚ) (i : Nat) : ℚ :=
  res.getD i 0 - (res.getD i 0 - res.getD (i - 1) 0) * (p / 100)

/-- The loop condition of `_get_overview_level`:
`target_res > threshold or target_res == res_current`. -/
def ovrQualifies (res : List ℚ) (p target : ℚ) (i : Nat) : Prop :=
  target > ovrThreshold res p i ∨ target = res.getD i 0

instance (res : List ℚ) (p target : ℚ) (i : Nat) : Decidable (ovrQualifies res p target i) := by
  unfold ovrQualifies
  exact inferInstance

/-- The loop `for i in reversed(range(1, len(res)))` of `_get_overview_level`,
scanning `i = k, k-1, ..., 1` and returning the first qualifying level,
else `0`. -/
def ovrLoop (res : List ℚ) (p target : ℚ) : Nat → Nat
  | 0 => 0
  | i + 1 =>
    if ovrQualifies res p target (i + 1) then i + 1
    else ovrLoop res p target i

/-- `PartialReadBase._get_overview_level`, given the available resolution list
and the strategy percentage: scan from the coarsest level `len(res) - 1` down
to level `1`, return the first level with
`target_res > threshold or target_res == res_current`, else `0`. -/
def get_overview_level (res : List ℚ) (p target : ℚ) : Nat :=
  ovrLoop res p target (res.length - 1)

/-! ## Tile-index computation (`PartialReadBase._calculate_image_tiles`) -/

/-- The epsilon `1e-6` used in `_calculate_image_tiles`, idealized as an
exact rational. -/
def tileEps : ℚ := 1 / 1000000

/-- The epsilon-adjusted floor of `_calculate_image_tiles`:
`math.floor((pixel_coord + 1e-6) / tile_dimension)`. -/
def pixel_to_tile (coord : ℚ) (dim : Nat) : Int :=
  ⌊(coord + tileEps) / (dim : ℚ)⌋

/-- The tile-index range `(xmin, xmax, ymin, ymax)` computed by
`_calculate_image_tiles` from continuous pixel corners. -/
def calculate_tile_range (tlx tly brx bry : ℚ) (tile_width tile_height : Nat) :
    Int × Int × Int × Int :=
  (pixel_to_tile tlx tile_width, pixel_to_tile brx tile_width,
    pixel_to_tile tly tile_height, pixel_to_tile bry tile_height)

/-! ## Mosaic allocation (`PartialReadBase._init_array`) -/

/-- `PartialReadBase._init_array`: a zero-filled array of shape
`(bands, (ymax + 1 - ymin) * tile_height, (xmax + 1 - xmin) * tile_width)`
cast to the metadata dtype, wrapped in a masked array iff `_add_mask`
(`am`) holds. -/
def init_array (am : Bool) (img_tiles : TileMetadata) : Mosaic :=
  { bands := img_tiles.bands
    rows := (img_tiles.ymax + 1 - img_tiles.ymin) * img_tiles.tile_height
    cols := (img_tiles.xmax + 1 - img_tiles.xmin) * img_tiles.tile_width
    dtype := img_tiles.dtype
    data := fun _ _ _ => 0
    mask := if am then some (fun _ _ _ => false) else none }

/-! ## Clip and postprocess (`_clip_array`, `_postprocess`) -/

/-- `PartialReadBase._clip_array`: slice
`arr[:, tly : tly + height, tlx : tlx + width]`. -/
def clip_array (arr : Mosaic) (img_tiles : TileMetadata) : Mosaic :=
  { bands := arr.bands
    rows := img_tiles.height
    cols := img_tiles.width
    dtype := arr.dtype
    data := fun b y x => arr.data b (img_tiles.tly + y) (img_tiles.tlx + x)
    mask := arr.mask.map fun mk => fun b y x => mk b (img_tiles.tly + y) (img_tiles.tlx + x) }

/-- `PartialReadBase._postprocess`: clip, then resample only when an output
shape is given.  The resampling primitive (PIL-based `_resample`) is an
opaque collaborator passed as `resample`. -/
def postprocess (arr : Mosaic) (img_tiles : TileMetadata) (out_shape : Option (Nat × Nat))
    (resample : Mosaic → Nat × Nat → Mosaic) : Mosaic :=
  match out_shape with
  | none => clip_array arr img_tiles
  | some s => resample (clip_array arr img_tiles) s

/-! ## Byte-range fetching (`filesystems.py`) and merged ranges -/

/-- Python `min` over a non-empty list (the `[]` case is never used by the
callers, which pass non-empty `tile_indices`). -/
def pyMin : List Nat → Nat
  | [] => 0
  | h :: t => t.foldl min h

/-- Python `max` over a non-empty list. -/
def pyMax : List Nat → Nat
  | [] => 0
  | h :: t => t.foldl max h

/-- The storage collaborator's `range_request(start, offset)` over an
unbounded byte store: exactly `offset + 1` bytes covering
`[start, start + offset]` inclusive. -/
def fetchRange (file : Nat → Nat) (start offset : Nat) : List Nat :=
  (List.range (offset + 1)).map fun i => file (start + i)

/-- `LocalFilesystem._range_request`: `seek(start)` then `read(offset + 1)`
on a finite on-disk file. -/
def local_range_request (data : List Nat) (start offset : Nat) : List Nat :=
  (data.drop start).take (offset + 1)

/-- `PartialReadInterface._extract_tile`: slice one tile's bytes out of a
merged response, using `TileOffsets[tile_index] - offset` as local start and
`TileByteCounts[tile_index]` as length. -/
def extract_tile (ifd : IFD) (img_bytes : List Nat) (tile_index offset : Nat) : List Nat :=
  (img_bytes.drop (ifd.TileOffsets tile_index - offset)).take (ifd.TileByteCounts tile_index)

/-- `PartialReadInterface._merge_range_requests`: the single range request
covering the given tile indices, as a `(start, length - 1)` pair. -/
def merge_range_requests (ifd : IFD) (tile_indices : List Nat) (offset : Nat) : Nat × Nat :=
  (offset,
    ifd.TileOffsets (pyMax tile_indices) + ifd.TileByteCounts (pyMax tile_indices) - offset - 1)

/-! ## Stitching and the two fetch orchestrators -/

/-- `PartialReadBase._stitch_image_tile`: write the tile into the
`(idy, idx)` sub-block of the fused array; when the tile is a masked array,
also overwrite the corresponding mask sub-block. -/
def stitch_image_tile (arr : TileArr) (fused : Mosaic) (idx idy tile_width tile_height : Nat) :
    Mosaic :=
  { fused with
    data := fun b y x =>
      if idy * tile_height ≤ y ∧ y < (idy + 1) * tile_height ∧
          idx * tile_width ≤ x ∧ x < (idx + 1) * tile_width then
        arr.data b (y - idy * tile_height) (x - idx * tile_width)
      else fused.data b y x
    mask :=
      match arr.mask with
      | none => fused.mask
      | some tm => fused.mask.map fun fm => fun b y x =>
          if idy * tile_height ≤ y ∧ y < (idy + 1) * tile_height ∧
              idx * tile_width ≤ x ∧ x < (idx + 1) * tile_width then
            tm b (y - idy * tile_height) (x - idx * tile_width)
          else fm b y x }

/-- Modelled from the spec: the abstract `get_tile` of `PartialReadBase`,
whose concrete implementation lives outside the two embedded modules.  Per
§4.4 per-tile mode fetches that tile's exact byte range via the storage
collaborator and decodes via the format collaborator, converting `(row, col)`
to the flat tile index `row * tile_grid_width + col` (§6); when a mask is
carried, the decoded mask tile is broadcast over bands and inverted before
attachment, the same per-tile mask treatment as the merged path (§4.4, §8). -/
def get_tile (env : ReadEnv) (x y z : Nat) : TileArr :=
  let ifd := env.ifds z
  let ti := y * ifd.tileCount0 + x
  let decoded := env.decode (fetchRange env.file (ifd.TileOffsets ti) (ifd.TileByteCounts ti - 1))
  if env.add_mask then
    let mifd := env.maskIfds z
    let md := env.decodeMask (fetchRange env.file (mifd.TileOffsets ti) (mifd.TileByteCounts ti - 1))
    { data := decoded, mask := some fun _ yy xx => ! md yy xx }
  else
    { data := decoded, mask := none }

/-- The grid positions `(idx, idy)` enumerated by `_request_tiles`
(`idx` outer, `idy` inner, matching the task-creation order). -/
def gridKeys (m : TileMetadata) : List (Nat × Nat) :=
  (List.range (m.xmax + 1 - m.xmin)).flatMap fun idx =>
    (List.range (m.ymax + 1 - m.ymin)).map fun idy => (idx, idy)

/-- `PartialReadBase._request_tiles`: fetch every tile of the
`[xmin, xmax] × [ymin, ymax]` range and stitch each into the fused array.
The `asyncio.gather` fan-out/fan-in is modelled as a fold in task-creation
order (stitches target disjoint sub-regions). -/
def request_tiles (env : ReadEnv) (img_tiles : TileMetadata) : Mosaic :=
  (gridKeys img_tiles).foldl
    (fun arr p =>
      stitch_image_tile
        (get_tile env (img_tiles.xmin + p.1) (img_tiles.ymin + p.2) img_tiles.ovr_level)
        arr p.1 p.2 img_tiles.tile_width img_tiles.tile_height)
    (init_array env.add_mask img_tiles)

/-- The per-tile extract/decompress/mask step inside the loop of
`PartialReadInterface._request_merged_tile`: extract the tile bytes from the
merged response, decompress, and when a mask is carried wrap the decoded tile
in `np.ma.masked_array(decoded, np.invert(np.broadcast_to(mask_decoded,
decoded.shape)))`. -/
def mergedTile (env : ReadEnv) (ifd mifd : IFD) (resp0 resp1 : List Nat)
    (tile_idx offset mask_offset : Nat) : TileArr :=
  let decoded := env.decode (extract_tile ifd resp0 tile_idx offset)
  if env.add_mask then
    let md := env.decodeMask (extract_tile mifd resp1 tile_idx mask_offset)
    { data := decoded, mask := some fun _ yy xx => ! md yy xx }
  else
    { data := decoded, mask := none }

/-- `PartialReadInterface._request_merged_tile`: one merged range request for
the row's image bytes (and one for the mask bytes when a mask is carried),
then extract/decompress/mask/stitch each tile of the row. -/
def request_merged_tile (env : ReadEnv) (arr : Mosaic) (indices : List (Nat × Nat × Nat))
    (img_tiles : TileMetadata) : Mosaic :=
  let ifd := env.ifds img_tiles.ovr_level
  let tile_indices := indices.map fun t => t.1
  let offset := ifd.TileOffsets (pyMin tile_indices)
  let rng := merge_range_requests ifd tile_indices offset
  let resp0 := fetchRange env.file rng.1 rng.2
  let mifd := env.maskIfds img_tiles.ovr_level
  let mask_offset := mifd.TileOffsets (pyMin tile_indices)
  let mrng := merge_range_requests mifd tile_indices mask_offset
  let resp1 := fetchRange env.file mrng.1 mrng.2
  indices.foldl
    (fun a t =>
      stitch_image_tile (mergedTile env ifd mifd resp0 resp1 t.1 offset mask_offset)
        a t.2.1 t.2.2 img_tiles.tile_width img_tiles.tile_height)
    arr

/-- The `(tile_index, idx, idy)` triples accumulated for row `idy` by
`_request_merged_tiles`, with `tile_index = ytile * tile_count[0] + xtile`. -/
def rowIndices (m : TileMetadata) (w idy : Nat) : List (Nat × Nat × Nat) :=
  (List.range (m.xmax + 1 - m.xmin)).map fun idx =>
    ((m.ymin + idy) * w + (m.xmin + idx), idx, idy)

/-- `PartialReadInterface._request_merged_tiles`: per tile-grid row, merge the
row's tile requests into one range request and stitch the row's tiles. -/
def request_merged_tiles (env : ReadEnv) (img_tiles : TileMetadata) : Mosaic :=
  let w := (env.ifds img_tiles.ovr_level).tileCount0
  (List.range (img_tiles.ymax + 1 - img_tiles.ymin)).foldl
    (fun arr idy => request_merged_tile env arr (rowIndices img_tiles w idy) img_tiles)
    (init_array env.add_mask img_tiles)

/-! ## Fallible variant (error propagation, `asyncio.gather` fail-fast) -/

/-- The read environment with fallible collaborators: the byte fetch
(`range_request`, which raises `FileNotFoundError` on transport errors) and
the tile/mask decompression may fail. -/
structure ReadEnvE where
  fetch : Nat → Nat → Except String (List Nat)
  decode : List Nat → Except String (Nat → Nat → Nat → Int)
  decodeMask : List Nat → Except String (Nat → Nat → Bool)
  isMasked : Bool
  nodata : Option Int
  ifds : Nat → IFD
  maskIfds : Nat → IFD

/-- `_add_mask` for the fallible environment. -/
def ReadEnvE.add_mask (env : ReadEnvE) : Bool :=
  if env.isMasked then true
  else if env.nodata.isSome then true
  else false

/-- Modelled from the spec: fallible `get_tile` (per-tile fetch + decode,
either of which may fail). -/
def get_tileE (env : ReadEnvE) (x y z : Nat) : Except String TileArr := do
  let ifd := env.ifds z
  let ti := y * ifd.tileCount0 + x
  let bytes ← env.fetch (ifd.TileOffsets ti) (ifd.TileByteCounts ti - 1)
  let decoded ← env.decode bytes
  if env.add_mask then
    let mifd := env.maskIfds z
    let mbytes ← env.fetch (mifd.TileOffsets ti) (mifd.TileByteCounts ti - 1)
    let md ← env.decodeMask mbytes
    pure { data := decoded, mask := some fun _ yy xx => ! md yy xx }
  else
    pure { data := decoded, mask := none }

/-- `_request_tiles` with fallible tile tasks: `asyncio.gather` re-raises the
failure of any tile task, so the whole call yields an error and no mosaic. -/
def request_tilesE (env : ReadEnvE) (m : TileMetadata) : Except String Mosaic :=
  (gridKeys m).foldlM
    (fun arr p =>
      (get_tileE env (m.xmin + p.1) (m.ymin + p.2) m.ovr_level).map fun t =>
        stitch_image_tile t arr p.1 p.2 m.tile_width m.tile_height)
    (init_array env.add_mask m)

/-- `_request_merged_tile` with fallible fetch/decode. -/
def request_merged_tileE (env : ReadEnvE) (arr : Mosaic) (indices : List (Nat × Nat × Nat))
    (m : TileMetadata) : Except String Mosaic := do
  let ifd := env.ifds m.ovr_level
  let tile_indices := indices.map fun t => t.1
  let offset := ifd.TileOffsets (pyMin tile_indices)
  let rng := merge_range_requests ifd tile_indices offset
  let resp0 ← env.fetch rng.1 rng.2
  if env.add_mask then
    let mifd := env.maskIfds m.ovr_level
    let mask_offset := mifd.TileOffsets (pyMin tile_indices)
    let mrng := merge_range_requests mifd tile_indices mask_offset
    let resp1 ← env.fetch mrng.1 mrng.2
    indices.foldlM
      (fun a t => do
        let decoded ← env.decode (extract_tile ifd resp0 t.1 offset)
        let md ← env.decodeMask (extract_tile mifd resp1 t.1 mask_offset)
        pure (stitch_image_tile { data := decoded, mask := some fun _ yy xx => ! md yy xx }
          a t.2.1 t.2.2 m.tile_width m.tile_height))
      arr
  else
    indices.foldlM
      (fun a t => do
        let decoded ← env.decode (extract_tile ifd resp0 t.1 offset)
        pure (stitch_image_tile { data := decoded, mask := none }
          a t.2.1 t.2.2 m.tile_width m.tile_height))
      arr

/-- `_request_merged_tiles` with fallible row tasks. -/
def request_merged_tilesE (env : ReadEnvE) (m : TileMetadata) : Except String Mosaic :=
  let w := (env.ifds m.ovr_level).tileCount0
  (List.range (m.ymax + 1 - m.ymin)).foldlM
    (fun arr idy => request_merged_tileE env arr (rowIndices m w idy) m)
    (init_array env.add_mask m)

/-- The merged byte range a row task requests for its image bytes: the
`(start, length - 1)` pair `_request_merged_tile` passes to `range_request`,
computed from the row's tile indices. -/
def rowRange (env : ReadEnvE) (m : TileMetadata) (indices : List (Nat × Nat × Nat)) :
    Nat × Nat :=
  let ifd := env.ifds m.ovr_level
  let tile_indices := indices.map fun t => t.1
  merge_range_requests ifd tile_indices (ifd.TileOffsets (pyMin tile_indices))

/-- A fold of stitches over a list of grid positions, each stitching the tile
that a tile-valuation function assigns to its position.  Both fetch
orchestrators reduce to this shape. -/
def stitchFold (tv : Nat → Nat → TileArr) (tw th : Nat) (l : List (Nat × Nat))
    (init : Mosaic) : Mosaic :=
  l.foldl (fun a p => stitch_image_tile (tv p.1 p.2) a p.1 p.2 tw th) init

/-- The tile stitched at grid position `(ix, iy)` by the per-tile fetch path:
`get_tile(xmin + ix, ymin + iy, ovr_level)`. -/
def tileValS (env : ReadEnv) (m : TileMetadata) (ix iy : Nat) : TileArr :=
  get_tile env (m.xmin + ix) (m.ymin + iy) m.ovr_level

/-- The mask attached to the tile at grid position `(ix, iy)` when the source
carries a mask: the inverted broadcast of the decoded mask-tile bytes. -/
def tile_mask (env : ReadEnv) (m : TileMetadata) (ix iy : Nat) : Nat → Nat → Nat → Bool :=
  fun _ yy xx => ! env.decodeMask
    (fetchRange env.file
      ((env.maskIfds m.ovr_level).TileOffsets
        ((m.ymin + iy) * (env.ifds m.ovr_level).tileCount0 + (m.xmin + ix)))
      ((env.maskIfds m.ovr_level).TileByteCounts
        ((m.ymin + iy) * (env.ifds m.ovr_level).tileCount0 + (m.xmin + ix)) - 1)) yy xx

/-! ## Theorems -/

/-- **C10.** `_intersect_bounds` is exactly the conjunction of four strict
comparisons, so two boxes that merely touch along a shared edge (or corner)
are reported as not intersecting. -/
theorem intersect_bounds_strict (rb cb : BBox) :
    (intersect_bounds rb cb = true ↔
      (cb.left < rb.right ∧ cb.right > rb.left ∧ cb.top > rb.bottom ∧ cb.bottom < rb.top))
    ∧ ((cb.right = rb.left ∨ cb.left = rb.right ∨ cb.top = rb.bottom ∨ cb.bottom = rb.top) →
      intersect_bounds rb cb = false) := by
  have hiff : intersect_bounds rb cb = true ↔
      (cb.left < rb.right ∧ cb.right > rb.left ∧ cb.top > rb.bottom ∧ cb.bottom < rb.top) := by
    simp [intersect_bounds, and_assoc]
  refine ⟨hiff, fun h => ?_⟩
  rw [← Bool.not_eq_true, hiff]
  rintro ⟨h1, h2, h3, h4⟩
  rcases h with h | h | h | h <;> linarith

/-- Witness for `intersect_bounds_strict`: a cog box whose left edge equals
the read box's right edge is reported as not intersecting. -/
theorem intersect_bounds_strict_witness :
    intersect_bounds ⟨0, 0, 2, 2⟩ ⟨2, 0, 4, 2⟩ = false :=
  (intersect_bounds_strict ⟨0, 0, 2, 2⟩ ⟨2, 0, 4, 2⟩).2 (Or.inr (Or.inl rfl))

/-- **C5.** A pixel coordinate lying exactly on the tile boundary
`k * tile_dim` maps to tile index `k` under the epsilon-adjusted floor of
`_calculate_image_tiles`, for every positive tile dimension. -/
theorem pixel_to_tile_on_boundary (T : Nat) (hT : 0 < T) (k : Int) :
    pixel_to_tile ((k : ℚ) * (T : ℚ)) T = k := by
  have hT0 : (0 : ℚ) < (T : ℚ) := by exact_mod_cast hT
  have hT1 : (1 : ℚ) ≤ (T : ℚ) := by exact_mod_cast hT
  unfold pixel_to_tile tileEps
  rw [add_div, mul_div_cancel_right₀ _ (ne_of_gt hT0), Int.floor_int_add]
  have h0 : ⌊(1 / 1000000 : ℚ) / (T : ℚ)⌋ = 0 := by
    rw [Int.floor_eq_zero_iff, Set.mem_Ico]
    constructor
    · positivity
    · have hle : (1 / 1000000 : ℚ) / (T : ℚ) ≤ 1 / 1000000 := div_le_self (by norm_num) hT1
      linarith
  rw [h0, add_zero]

/-- Witness for `pixel_to_tile_on_boundary`: pixel coordinate `3 * 256`
selects tile index `3` for 256-pixel tiles. -/
theorem pixel_to_tile_on_boundary_witness :
    0 < 256 ∧ pixel_to_tile ((3 : ℚ) * (256 : ℚ)) 256 = 3 :=
  ⟨by norm_num, pixel_to_tile_on_boundary 256 (by norm_num) 3⟩

/-- **C6.** `_postprocess` with `out_shape = None` returns exactly the slice
`arr[:, tly : tly + height, tlx : tlx + width]` — all bands, origin offsets
and width/height from the metadata — with no resampling applied, the mask
sliced under the same indices. -/
theorem postprocess_none_is_clip (arr : Mosaic) (m : TileMetadata)
    (resample : Mosaic → Nat × Nat → Mosaic) :
    postprocess arr m none resample = clip_array arr m
    ∧ (∀ b y x, (postprocess arr m none resample).data b y x
        = arr.data b (m.tly + y) (m.tlx + x))
    ∧ (postprocess arr m none resample).rows = m.height
    ∧ (postprocess arr m none resample).cols = m.width
    ∧ (postprocess arr m none resample).bands = arr.bands
    ∧ (postprocess arr m none resample).mask
        = arr.mask.map fun mk => fun b y x => mk b (m.tly + y) (m.tlx + x) :=
  ⟨rfl, fun _ _ _ => rfl, rfl, rfl, rfl, rfl⟩

/-- **C9.** `_init_array` allocates a zero-initialized buffer of shape
`(bands, (ymax - ymin + 1) * tile_height, (xmax - xmin + 1) * tile_width)`
with the metadata's dtype, and it carries a mask (all-valid by default) iff
the source has an internal mask or a declared nodata value. -/
theorem init_array_spec (env : ReadEnv) (m : TileMetadata)
    (hx : m.xmin ≤ m.xmax) (hy : m.ymin ≤ m.ymax) :
    (init_array env.add_mask m).bands = m.bands
    ∧ (init_array env.add_mask m).rows = (m.ymax - m.ymin + 1) * m.tile_height
    ∧ (init_array env.add_mask m).cols = (m.xmax - m.xmin + 1) * m.tile_width
    ∧ (init_array env.add_mask m).dtype = m.dtype
    ∧ (∀ b y x, (init_array env.add_mask m).data b y x = 0)
    ∧ (∀ mk, (init_array env.add_mask m).mask = some mk → ∀ b y x, mk b y x = false)
    ∧ ((init_array env.add_mask m).mask.isSome ↔ (env.isMasked = true ∨ env.nodata ≠ none)) := by
  refine ⟨rfl, ?_, ?_, rfl, fun _ _ _ => rfl, ?_, ?_⟩
  · show (m.ymax + 1 - m.ymin) * m.tile_height = (m.ymax - m.ymin + 1) * m.tile_height
    congr 1
    omega
  · show (m.xmax + 1 - m.xmin) * m.tile_width = (m.xmax - m.xmin + 1) * m.tile_width
    congr 1
    omega
  · intro mk hmk b y x
    by_cases ham : env.add_mask
    · simp only [init_array, ham, if_true, Option.some.injEq] at hmk
      rw [← hmk]
    · simp [init_array, ham] at hmk
  · unfold init_array ReadEnv.add_mask
    by_cases h1 : env.isMasked
    · simp [h1]
    · by_cases h2 : env.nodata.isSome
      · simp [h1, h2, Option.isSome_iff_ne_none.mp h2]
      · simp only [Bool.not_eq_true] at h1
        rw [Option.not_isSome_iff_eq_none] at h2
        simp [h1, h2]

/-- Witness for `init_array_spec` at a concrete masked environment and a
one-tile metadata. -/
theorem init_array_spec_witness :
    (0 : Nat) ≤ 0 ∧
    ((init_array (ReadEnv.add_mask ⟨fun _ => 0, fun _ => fun _ _ _ => 0,
        fun _ => fun _ _ => false, true, none, fun _ => ⟨fun _ => 0, fun _ => 0, 1⟩,
        fun _ => ⟨fun _ => 0, fun _ => 0, 1⟩⟩)
        ⟨0, 0, 1, 1, 1, 1, 0, 0, 0, 0, 1, 0, 0, [], []⟩).mask.isSome ↔
      ((true : Bool) = true ∨ (none : Option Int) ≠ none)) :=
  ⟨le_refl 0,
    (init_array_spec ⟨fun _ => 0, fun _ => fun _ _ _ => 0, fun _ => fun _ _ => false,
      true, none, fun _ => ⟨fun _ => 0, fun _ => 0, 1⟩, fun _ => ⟨fun _ => 0, fun _ => 0, 1⟩⟩
      ⟨0, 0, 1, 1, 1, 1, 0, 0, 0, 0, 1, 0, 0, [], []⟩ (le_refl 0) (le_refl 0)).2.2.2.2.2.2⟩

/-- Characterization of the scan `for i in reversed(range(1, k + 1))` in
`_get_overview_level`: either no level in `[1, k]` qualifies and the result
is `0`, or the result is the first (largest) qualifying level. -/
lemma ovrLoop_spec (res : List ℚ) (p target : ℚ) :
    ∀ k : Nat,
      (ovrLoop res p target k = 0 ∧ ∀ i, 1 ≤ i → i ≤ k → ¬ ovrQualifies res p target i)
      ∨ (1 ≤ ovrLoop res p target k ∧ ovrLoop res p target k ≤ k
          ∧ ovrQualifies res p target (ovrLoop res p target k)
          ∧ ∀ j, ovrLoop res p target k < j → j ≤ k → ¬ ovrQualifies res p target j) := by
  intro k
  induction k with
  | zero => exact Or.inl ⟨rfl, fun i h1 h2 _ => by omega⟩
  | succ n ih =>
    by_cases hq : ovrQualifies res p target (n + 1)
    · right
      have hl : ovrLoop res p target (n + 1) = n + 1 := by simp [ovrLoop, hq]
      rw [hl]
      exact ⟨by omega, le_refl _, hq, fun j hj1 hj2 _ => by omega⟩
    · have hl : ovrLoop res p target (n + 1) = ovrLoop res p target n := by simp [ovrLoop, hq]
      rw [hl]
      rcases ih with ⟨h0, hall⟩ | ⟨h1, h2, h3, h4⟩
      · left
        refine ⟨h0, fun i hi1 hi2 => ?_⟩
        rcases Nat.lt_or_ge i (n + 1) with hlt | hge
        · exact hall i hi1 (by omega)
        · have heq : i = n + 1 := by omega
          rw [heq]; exact hq
      · right
        refine ⟨h1, by omega, h3, fun j hj1 hj2 => ?_⟩
        rcases Nat.lt_or_ge j (n + 1) with hlt | hge
        · exact h4 j hj1 (by omega)
        · have heq : j = n + 1 := by omega
          rw [heq]; exact hq

/-- **C3.** `_get_overview_level` walks levels from the coarsest index
`len(res) - 1` down to `1`, computes
`threshold = res[i] - (res[i] - res[i-1]) * p / 100`, returns the first `i`
with `target > threshold or target == res[i]`, and returns `0` when no level
qualifies. -/
theorem get_overview_level_scan (res : List ℚ) (p target : ℚ)
    (hp0 : 0 ≤ p) (hp1 : p ≤ 100) :
    (get_overview_level res p target = 0
      ∧ ∀ i, 1 ≤ i → i + 1 ≤ res.length → ¬ ovrQualifies res p target i)
    ∨ (1 ≤ get_overview_level res p target
        ∧ get_overview_level res p target + 1 ≤ res.length
        ∧ ovrQualifies res p target (get_overview_level res p target)
        ∧ ∀ j, get_overview_level res p target < j → j + 1 ≤ res.length →
            ¬ ovrQualifies res p target j) := by
  unfold get_overview_level
  rcases ovrLoop_spec res p target (res.length - 1) with ⟨h0, hall⟩ | ⟨h1, h2, h3, h4⟩
  · exact Or.inl ⟨h0, fun i hi1 hi2 => hall i hi1 (by omega)⟩
  · exact Or.inr ⟨h1, by omega, h3, fun j hj1 hj2 => h4 j hj1 (by omega)⟩

/-- Witness for `get_overview_level_scan` on resolutions `[1, 2, 4]` with the
default 50% strategy and target resolution `5`. -/
theorem get_overview_level_scan_witness :
    (0 : ℚ) ≤ 50 ∧ (50 : ℚ) ≤ 100 ∧
    ((get_overview_level [1, 2, 4] 50 5 = 0
        ∧ ∀ i, 1 ≤ i → i + 1 ≤ ([1, 2, 4] : List ℚ).length → ¬ ovrQualifies [1, 2, 4] 50 5 i)
      ∨ (1 ≤ get_overview_level [1, 2, 4] 50 5
          ∧ get_overview_level [1, 2, 4] 50 5 + 1 ≤ ([1, 2, 4] : List ℚ).length
          ∧ ovrQualifies [1, 2, 4] 50 5 (get_overview_level [1, 2, 4] 50 5)
          ∧ ∀ j, get_overview_level [1, 2, 4] 50 5 < j → j + 1 ≤ ([1, 2, 4] : List ℚ).length →
              ¬ ovrQualifies [1, 2, 4] 50 5 j)) :=
  ⟨by norm_num, by norm_num,
    get_overview_level_scan [1, 2, 4] 50 5 (by norm_num) (by norm_num)⟩

/-- The qualification predicate of `_get_overview_level` is upward closed in
the target resolution when the adjacent resolutions are ordered fine-to-coarse
and the strategy percentage is non-negative. -/
lemma ovrQualifies_mono (res : List ℚ) (p : ℚ) (i : Nat) (hp0 : 0 ≤ p)
    (hs : res.getD (i - 1) 0 ≤ res.getD i 0)
    {t1 t2 : ℚ} (h12 : t1 ≤ t2) (hq : ovrQualifies res p t1 i) :
    ovrQualifies res p t2 i := by
  have hth : ovrThreshold res p i ≤ res.getD i 0 := by
    unfold ovrThreshold
    have h1 : (0 : ℚ) ≤ res.getD i 0 - res.getD (i - 1) 0 := by linarith
    have h2 : (0 : ℚ) ≤ p / 100 := by positivity
    have := mul_nonneg h1 h2
    linarith
  rcases hq with hlt | heq
  · exact Or.inl (lt_of_lt_of_le hlt h12)
  · rcases eq_or_lt_of_le h12 with he | hlt2
    · exact Or.inr (by rw [← he]; exact heq)
    · refine Or.inl ?_
      calc ovrThreshold res p i ≤ res.getD i 0 := hth
        _ = t1 := heq.symm
        _ < t2 := hlt2

/-- **C4.** For a fixed percentage `p ∈ [0, 100]` and a fixed fine-to-coarse
resolution list, `_get_overview_level` is monotone in the target resolution:
a finer target never selects a coarser (larger-index) level. -/
theorem get_overview_level_monotone (res : List ℚ) (p t1 t2 : ℚ)
    (hp0 : 0 ≤ p) (hp1 : p ≤ 100)
    (hsorted : ∀ i, i + 1 < res.length → res.getD i 0 ≤ res.getD (i + 1) 0)
    (ht : t1 ≤ t2) :
    get_overview_level res p t1 ≤ get_overview_level res p t2 := by
  show ovrLoop res p t1 (res.length - 1) ≤ ovrLoop res p t2 (res.length - 1)
  rcases ovrLoop_spec res p t1 (res.length - 1) with ⟨h0, _⟩ | ⟨h1, h2, h3, _⟩
  · rw [h0]; exact Nat.zero_le _
  · have hr1len : ovrLoop res p t1 (res.length - 1) < res.length := by omega
    have hs : res.getD (ovrLoop res p t1 (res.length - 1) - 1) 0
        ≤ res.getD (ovrLoop res p t1 (res.length - 1)) 0 := by
      have hstep := hsorted (ovrLoop res p t1 (res.length - 1) - 1) (by omega)
      have heq : ovrLoop res p t1 (res.length - 1) - 1 + 1
          = ovrLoop res p t1 (res.length - 1) := by omega
      rwa [heq] at hstep
    have hq2 : ovrQualifies res p t2 (ovrLoop res p t1 (res.length - 1)) :=
      ovrQualifies_mono res p (ovrLoop res p t1 (res.length - 1)) hp0 hs ht h3
    rcases ovrLoop_spec res p t2 (res.length - 1) with ⟨h0', hall'⟩ | ⟨h1', h2', h3', h4'⟩
    · exact (hall' (ovrLoop res p t1 (res.length - 1)) h1 h2 hq2).elim
    · by_contra hlt
      push_neg at hlt
      exact h4' (ovrLoop res p t1 (res.length - 1)) hlt h2 hq2

/-- Witness for `get_overview_level_monotone` on resolutions `[1, 2, 4]`. -/
theorem get_overview_level_monotone_witness :
    (0 : ℚ) ≤ 50 ∧ (50 : ℚ) ≤ 100
    ∧ (∀ i, i + 1 < ([1, 2, 4] : List ℚ).length →
        ([1, 2, 4] : List ℚ).getD i 0 ≤ ([1, 2, 4] : List ℚ).getD (i + 1) 0)
    ∧ (1 : ℚ) ≤ 3
    ∧ get_overview_level [1, 2, 4] 50 1 ≤ get_overview_level [1, 2, 4] 50 3 := by
  have hsorted : ∀ i, i + 1 < ([1, 2, 4] : List ℚ).length →
      ([1, 2, 4] : List ℚ).getD i 0 ≤ ([1, 2, 4] : List ℚ).getD (i + 1) 0 := by
    intro i hi
    have hi2 : i < 2 := by simp only [List.length_cons, List.length_nil] at hi; omega
    interval_cases i <;> norm_num
  exact ⟨by norm_num, by norm_num, hsorted, by norm_num,
    get_overview_level_monotone [1, 2, 4] 50 1 3 (by norm_num) (by norm_num) hsorted
      (by norm_num)⟩

/-- **C7.** For a non-empty row of tile indices, `_merge_range_requests`
returns the pair `(first_tile_offset, last_tile_offset + last_tile_bytecount
- first_tile_offset - 1)`, and the local filesystem's
`_range_request(start, length_minus_one)` delivers exactly
`length_minus_one + 1` bytes, byte `j` being the file byte at
`start + j` — so the merged request covers exactly the inclusive span
`[first_tile_offset, last_tile_offset + last_tile_bytecount - 1]`. -/
theorem merge_range_request_span (ifd : IFD) (tile_indices : List Nat) (data : List Nat)
    (hne : tile_indices ≠ [])
    (hmono : ifd.TileOffsets (pyMin tile_indices) ≤ ifd.TileOffsets (pyMax tile_indices))
    (hcnt : 1 ≤ ifd.TileByteCounts (pyMax tile_indices))
    (hlen : ifd.TileOffsets (pyMax tile_indices) + ifd.TileByteCounts (pyMax tile_indices)
      ≤ data.length) :
    merge_range_requests ifd tile_indices (ifd.TileOffsets (pyMin tile_indices))
      = (ifd.TileOffsets (pyMin tile_indices),
        ifd.TileOffsets (pyMax tile_indices) + ifd.TileByteCounts (pyMax tile_indices)
          - ifd.TileOffsets (pyMin tile_indices) - 1)
    ∧ (local_range_request data (ifd.TileOffsets (pyMin tile_indices))
        (merge_range_requests ifd tile_indices (ifd.TileOffsets (pyMin tile_indices))).2).length
      = (merge_range_requests ifd tile_indices (ifd.TileOffsets (pyMin tile_indices))).2 + 1
    ∧ local_range_request data (ifd.TileOffsets (pyMin tile_indices))
        (merge_range_requests ifd tile_indices (ifd.TileOffsets (pyMin tile_indices))).2
      = (List.range ((merge_range_requests ifd tile_indices
            (ifd.TileOffsets (pyMin tile_indices))).2 + 1)).map
          (fun j => data.getD (ifd.TileOffsets (pyMin tile_indices) + j) 0) := by
  have hsnd : (merge_range_requests ifd tile_indices (ifd.TileOffsets (pyMin tile_indices))).2
      = ifd.TileOffsets (pyMax tile_indices) + ifd.TileByteCounts (pyMax tile_indices)
        - ifd.TileOffsets (pyMin tile_indices) - 1 := rfl
  have hlen1 : ∀ L, ifd.TileOffsets (pyMin tile_indices) + L + 1 ≤ data.length →
      (local_range_request data (ifd.TileOffsets (pyMin tile_indices)) L).length = L + 1 := by
    intro L hL
    simp only [local_range_request, List.length_take, List.length_drop]
    omega
  have hbound : ifd.TileOffsets (pyMin tile_indices)
      + (merge_range_requests ifd tile_indices (ifd.TileOffsets (pyMin tile_indices))).2 + 1
      ≤ data.length := by
    rw [hsnd]; omega
  refine ⟨rfl, hlen1 _ hbound, ?_⟩
  apply List.ext_getElem
  · rw [hlen1 _ hbound]
    simp
  · intro i h1 h2
    have hi : i < (merge_range_requests ifd tile_indices
        (ifd.TileOffsets (pyMin tile_indices))).2 + 1 := by
      rwa [hlen1 _ hbound] at h1
    have hidx : ifd.TileOffsets (pyMin tile_indices) + i < data.length := by omega
    simp only [local_range_request, List.getElem_take, List.getElem_drop, List.getElem_map,
      List.getElem_range, List.getD_eq_getElem?_getD]
    rw [List.getElem?_eq_getElem hidx]
    rfl

/-- Witness for `merge_range_request_span` on a two-tile row with offsets
`10, 14`, byte counts `4`, over a 20-byte file. -/
theorem merge_range_request_span_witness :
    (local_range_request (List.replicate 20 7)
        ((IFD.mk (fun i => 10 + 4 * i) (fun _ => 4) 2).TileOffsets (pyMin [0, 1]))
        (merge_range_requests (IFD.mk (fun i => 10 + 4 * i) (fun _ => 4) 2) [0, 1]
          ((IFD.mk (fun i => 10 + 4 * i) (fun _ => 4) 2).TileOffsets (pyMin [0, 1]))).2).length
      = (merge_range_requests (IFD.mk (fun i => 10 + 4 * i) (fun _ => 4) 2) [0, 1]
          ((IFD.mk (fun i => 10 + 4 * i) (fun _ => 4) 2).TileOffsets (pyMin [0, 1]))).2 + 1 :=
  (merge_range_request_span (IFD.mk (fun i => 10 + 4 * i) (fun _ => 4) 2) [0, 1]
    (List.replicate 20 7) (by decide) (by decide) (by decide) (by decide)).2.1

/-- **C2.** In merged-range mode, the mask stored on a stitched tile is the
pointwise complement of the broadcasted decoded mask bytes: an entry of the
attached mask array is `true` exactly when the corresponding entry of the
broadcasted mask decode is `false`. -/
theorem merged_tile_mask_is_complement (env : ReadEnv) (ifd mifd : IFD)
    (resp0 resp1 : List Nat) (tile_idx offset mask_offset : Nat)
    (hm : env.add_mask = true) :
    ∃ M, (mergedTile env ifd mifd resp0 resp1 tile_idx offset mask_offset).mask = some M
      ∧ ∀ b y x, (M b y x = true ↔
          env.decodeMask (extract_tile mifd resp1 tile_idx mask_offset) y x = false) := by
  refine ⟨fun _ yy xx => ! env.decodeMask (extract_tile mifd resp1 tile_idx mask_offset) yy xx,
    ?_, ?_⟩
  · simp [mergedTile, hm]
  · intro b y x
    simp

/-- Witness for `merged_tile_mask_is_complement` at a concrete masked
environment. -/
theorem merged_tile_mask_is_complement_witness :
    ∃ M, (mergedTile (ReadEnv.mk (fun _ => 0) (fun _ => fun _ _ _ => 0)
          (fun _ => fun _ _ => false) true none (fun _ => IFD.mk (fun _ => 0) (fun _ => 0) 1)
          (fun _ => IFD.mk (fun _ => 0) (fun _ => 0) 1))
        (IFD.mk (fun _ => 0) (fun _ => 0) 1) (IFD.mk (fun _ => 0) (fun _ => 0) 1)
        [] [] 0 0 0).mask = some M
      ∧ ∀ b y x, (M b y x = true ↔
          (ReadEnv.mk (fun _ => 0) (fun _ => fun _ _ _ => 0) (fun _ => fun _ _ => false) true
            none (fun _ => IFD.mk (fun _ => 0) (fun _ => 0) 1)
            (fun _ => IFD.mk (fun _ => 0) (fun _ => 0) 1)).decodeMask
            (extract_tile (IFD.mk (fun _ => 0) (fun _ => 0) 1) [] 0 0) y x = false) :=
  merged_tile_mask_is_complement _ _ _ _ _ _ _ _ rfl

lemma except_ok_bind {α β : Type} (a : α) (k : α → Except String β) :
    (Except.ok a >>= k) = k a := rfl

lemma except_error_bind {α β : Type} (e : String) (k : α → Except String β) :
    ((Except.error e : Except String α) >>= k) = Except.error e := rfl

/-- Fail-fast propagation through a monadic fold: if some list element's step
fails regardless of the accumulator, the whole fold fails.  This models
`asyncio.gather` re-raising the failure of any gathered task. -/
lemma foldlM_error {α β : Type} (f : β → α → Except String β) :
    ∀ (l : List α) (a0 : α), a0 ∈ l → (∀ b, ∃ e, f b a0 = Except.error e) →
      ∀ b, ∃ e, l.foldlM f b = Except.error e := by
  intro l
  induction l with
  | nil => intro a0 ha _ _; cases ha
  | cons h t ih =>
    intro a0 ha hf b
    rcases List.mem_cons.mp ha with heq | hmem
    · subst heq
      rcases hf b with ⟨e, he⟩
      exact ⟨e, by rw [List.foldlM_cons, he, except_error_bind]⟩
    · cases hfb : f b h with
      | error e => exact ⟨e, by rw [List.foldlM_cons, hfb, except_error_bind]⟩
      | ok b' =>
        rcases ih a0 hmem hf b' with ⟨e, he⟩
        exact ⟨e, by rw [List.foldlM_cons, hfb, except_ok_bind]; exact he⟩

/-- **C8.** If any single tile fetch or decode fails during a partial read,
the whole call yields that failure and no mosaic is returned: (i) in per-tile
mode a failing tile task fails `_request_tiles`; (ii) in merged mode a failing
row range request fails `_request_merged_tiles`; (iii) in merged mode a
failing tile decompression inside a successfully fetched row also fails
`_request_merged_tiles`. -/
theorem read_fails_on_single_failure (env : ReadEnvE) (m : TileMetadata) :
    (∀ p, p ∈ gridKeys m →
      (∃ e, get_tileE env (m.xmin + p.1) (m.ymin + p.2) m.ovr_level = Except.error e) →
      ∃ e, request_tilesE env m = Except.error e)
    ∧ (∀ idy, idy ∈ List.range (m.ymax + 1 - m.ymin) →
      (∃ e, env.fetch
          (rowRange env m (rowIndices m (env.ifds m.ovr_level).tileCount0 idy)).1
          (rowRange env m (rowIndices m (env.ifds m.ovr_level).tileCount0 idy)).2
        = Except.error e) →
      ∃ e, request_merged_tilesE env m = Except.error e)
    ∧ (∀ idy, idy ∈ List.range (m.ymax + 1 - m.ymin) → ∀ resp0,
      env.fetch (rowRange env m (rowIndices m (env.ifds m.ovr_level).tileCount0 idy)).1
          (rowRange env m (rowIndices m (env.ifds m.ovr_level).tileCount0 idy)).2
        = Except.ok resp0 →
      ∀ t, t ∈ rowIndices m (env.ifds m.ovr_level).tileCount0 idy →
      (∃ e, env.decode (extract_tile (env.ifds m.ovr_level) resp0 t.1
          (rowRange env m (rowIndices m (env.ifds m.ovr_level).tileCount0 idy)).1)
        = Except.error e) →
      ∃ e, request_merged_tilesE env m = Except.error e) := by
  refine ⟨?_, ?_, ?_⟩
  · rintro p hp ⟨e, he⟩
    unfold request_tilesE
    apply foldlM_error _ _ p hp
    intro b
    exact ⟨e, by simp only [he, Except.map]⟩
  · rintro idy hidy ⟨e, he⟩
    unfold request_merged_tilesE
    apply foldlM_error _ _ idy hidy
    intro b
    refine ⟨e, ?_⟩
    simp only [rowRange] at he
    simp only [request_merged_tileE]
    rw [he, except_error_bind]
  · rintro idy hidy resp0 hok t ht ⟨e, he⟩
    unfold request_merged_tilesE
    apply foldlM_error _ _ idy hidy
    intro b
    simp only [rowRange] at hok he
    simp only [merge_range_requests] at he
    simp only [request_merged_tileE]
    rw [hok, except_ok_bind]
    by_cases ham : env.add_mask
    · rw [if_pos ham]
      cases hmf : env.fetch
          (merge_range_requests (env.maskIfds m.ovr_level)
            ((rowIndices m (env.ifds m.ovr_level).tileCount0 idy).map fun t => t.1)
            ((env.maskIfds m.ovr_level).TileOffsets
              (pyMin ((rowIndices m (env.ifds m.ovr_level).tileCount0 idy).map
                fun t => t.1)))).1
          (merge_range_requests (env.maskIfds m.ovr_level)
            ((rowIndices m (env.ifds m.ovr_level).tileCount0 idy).map fun t => t.1)
            ((env.maskIfds m.ovr_level).TileOffsets
              (pyMin ((rowIndices m (env.ifds m.ovr_level).tileCount0 idy).map
                fun t => t.1)))).2 with
      | error e2 => exact ⟨e2, by rw [except_error_bind]⟩
      | ok resp1 =>
        rw [except_ok_bind]
        apply foldlM_error _ _ t ht
        intro b2
        exact ⟨e, by simp only [he, except_error_bind]⟩
    · rw [if_neg ham]
      apply foldlM_error _ _ t ht
      intro b2
      exact ⟨e, by simp only [he, except_error_bind]⟩

/-- Witness for `read_fails_on_single_failure`: a failing byte fetch fails
both fetch modes, and a failing decode fails the merged mode. -/
theorem read_fails_on_single_failure_witness :
    (∃ e, request_tilesE
      (ReadEnvE.mk (fun _ _ => Except.error "io") (fun _ => Except.ok fun _ _ _ => 0)
        (fun _ => Except.ok fun _ _ => false) false none
        (fun _ => IFD.mk (fun _ => 0) (fun _ => 1) 1) (fun _ => IFD.mk (fun _ => 0) (fun _ => 1) 1))
      (TileMetadata.mk 0 0 1 1 1 1 0 0 0 0 1 0 0 [] []) = Except.error e)
    ∧ (∃ e, request_merged_tilesE
      (ReadEnvE.mk (fun _ _ => Except.error "io") (fun _ => Except.ok fun _ _ _ => 0)
        (fun _ => Except.ok fun _ _ => false) false none
        (fun _ => IFD.mk (fun _ => 0) (fun _ => 1) 1) (fun _ => IFD.mk (fun _ => 0) (fun _ => 1) 1))
      (TileMetadata.mk 0 0 1 1 1 1 0 0 0 0 1 0 0 [] []) = Except.error e)
    ∧ (∃ e, request_merged_tilesE
      (ReadEnvE.mk (fun _ _ => Except.ok []) (fun _ => Except.error "bad")
        (fun _ => Except.ok fun _ _ => false) false none
        (fun _ => IFD.mk (fun _ => 0) (fun _ => 1) 1) (fun _ => IFD.mk (fun _ => 0) (fun _ => 1) 1))
      (TileMetadata.mk 0 0 1 1 1 1 0 0 0 0 1 0 0 [] []) = Except.error e) :=
  ⟨(read_fails_on_single_failure _ _).1 (0, 0) (by decide) ⟨"io", rfl⟩,
    (read_fails_on_single_failure _ _).2.1 0 (by decide) ⟨"io", rfl⟩,
    (read_fails_on_single_failure _ _).2.2 0 (by decide) [] rfl (0, 0, 0) (by decide)
      ⟨"bad", rfl⟩⟩

/-! ### Helper lemmas for the fetch-mode equivalence -/

/-- A pixel lies in the `(idx, idy)` tile slot iff its tile quotients are
`(idx, idy)`. -/
lemma region_div_iff (tw th idx idy y x : Nat) (htw : 0 < tw) (hth : 0 < th) :
    (idy * th ≤ y ∧ y < (idy + 1) * th ∧ idx * tw ≤ x ∧ x < (idx + 1) * tw)
      ↔ (x / tw = idx ∧ y / th = idy) := by
  constructor
  · rintro ⟨h1, h2, h3, h4⟩
    exact ⟨Nat.div_eq_of_lt_le h3 h4, Nat.div_eq_of_lt_le h1 h2⟩
  · rintro ⟨hx, hy⟩
    subst hx
    subst hy
    refine ⟨Nat.div_mul_le_self y th, ?_, Nat.div_mul_le_self x tw, ?_⟩
    · have h1 := Nat.mod_lt y hth
      have h2 := Nat.div_add_mod' y th
      rw [Nat.add_mul, one_mul]
      omega
    · have h1 := Nat.mod_lt x htw
      have h2 := Nat.div_add_mod' x tw
      rw [Nat.add_mul, one_mul]
      omega

/-- Pointwise value of a single stitch. -/
lemma stitch_data_eq (t : TileArr) (a : Mosaic) (idx idy tw th : Nat)
    (htw : 0 < tw) (hth : 0 < th) (b y x : Nat) :
    (stitch_image_tile t a idx idy tw th).data b y x
      = if x / tw = idx ∧ y / th = idy then t.data b (y - idy * th) (x - idx * tw)
        else a.data b y x := by
  show (if idy * th ≤ y ∧ y < (idy + 1) * th ∧ idx * tw ≤ x ∧ x < (idx + 1) * tw then
      t.data b (y - idy * th) (x - idx * tw)
    else a.data b y x) = _
  rw [if_congr (region_div_iff tw th idx idy y x htw hth) rfl rfl]

/-- Mask of a single stitch of a masked tile into a masked buffer. -/
lemma stitch_mask_some_eq (t : TileArr) (tm : Nat → Nat → Nat → Bool) (ht : t.mask = some tm)
    (a : Mosaic) (am : Nat → Nat → Nat → Bool) (ha : a.mask = some am)
    (idx idy tw th : Nat) (htw : 0 < tw) (hth : 0 < th) :
    (stitch_image_tile t a idx idy tw th).mask
      = some (fun b y x =>
          if x / tw = idx ∧ y / th = idy then tm b (y - idy * th) (x - idx * tw)
          else am b y x) := by
  unfold stitch_image_tile
  rw [ht]
  simp only [ha, Option.map_some']
  congr 1
  funext b y x
  rw [if_congr (region_div_iff tw th idx idy y x htw hth) rfl rfl]

/-- Stitching an unmasked tile leaves the buffer mask unchanged. -/
lemma stitch_mask_none_eq (t : TileArr) (ht : t.mask = none) (a : Mosaic)
    (idx idy tw th : Nat) :
    (stitch_image_tile t a idx idy tw th).mask = a.mask := by
  unfold stitch_image_tile
  rw [ht]

/-- Stitches only touch `data`/`mask`, never the shape fields. -/
lemma stitchFold_shape (tv : Nat → Nat → TileArr) (tw th : Nat) :
    ∀ (l : List (Nat × Nat)) (init : Mosaic),
      (stitchFold tv tw th l init).bands = init.bands
      ∧ (stitchFold tv tw th l init).rows = init.rows
      ∧ (stitchFold tv tw th l init).cols = init.cols
      ∧ (stitchFold tv tw th l init).dtype = init.dtype := by
  intro l
  induction l with
  | nil => intro init; exact ⟨rfl, rfl, rfl, rfl⟩
  | cons p t ih =>
    intro init
    exact ih (stitch_image_tile (tv p.1 p.2) init p.1 p.2 tw th)

/-- Closed form of the stitched fold's data: each pixel holds the value of
the unique tile slot containing it when that slot is in the list, otherwise
the initial value.  (Stitch order is irrelevant: slots are disjoint.) -/
lemma stitchFold_data (tv : Nat → Nat → TileArr) (tw th : Nat)
    (htw : 0 < tw) (hth : 0 < th) :
    ∀ (l : List (Nat × Nat)) (init : Mosaic) (b y x : Nat),
      (stitchFold tv tw th l init).data b y x
        = if (x / tw, y / th) ∈ l then
            (tv (x / tw) (y / th)).data b (y - y / th * th) (x - x / tw * tw)
          else init.data b y x := by
  intro l
  induction l with
  | nil =>
    intro init b y x
    simp [stitchFold]
  | cons p t ih =>
    intro init b y x
    have hstep : stitchFold tv tw th (p :: t) init
        = stitchFold tv tw th t (stitch_image_tile (tv p.1 p.2) init p.1 p.2 tw th) := rfl
    rw [hstep, ih]
    by_cases hmem : (x / tw, y / th) ∈ t
    · rw [if_pos hmem, if_pos (List.mem_cons_of_mem _ hmem)]
    · rw [if_neg hmem, stitch_data_eq _ _ _ _ _ _ htw hth]
      by_cases hp : x / tw = p.1 ∧ y / th = p.2
      · rw [if_pos hp, if_pos (by
          rw [List.mem_cons]
          exact Or.inl (Prod.ext_iff.mpr ⟨hp.1, hp.2⟩))]
        rw [hp.1, hp.2]
      · rw [if_neg hp, if_neg (by
          rw [List.mem_cons]
          rintro (hc | hc)
          · exact hp ⟨congrArg Prod.fst hc, congrArg Prod.snd hc⟩
          · exact hmem hc)]

/-- Closed form of the stitched fold's mask when every tile is unmasked. -/
lemma stitchFold_mask_none (tv : Nat → Nat → TileArr) (tw th : Nat)
    (hm : ∀ ix iy, (tv ix iy).mask = none) :
    ∀ (l : List (Nat × Nat)) (init : Mosaic),
      (stitchFold tv tw th l init).mask = init.mask := by
  intro l
  induction l with
  | nil => intro init; rfl
  | cons p t ih =>
    intro init
    have hstep : stitchFold tv tw th (p :: t) init
        = stitchFold tv tw th t (stitch_image_tile (tv p.1 p.2) init p.1 p.2 tw th) := rfl
    rw [hstep, ih, stitch_mask_none_eq _ (hm p.1 p.2)]

/-- Closed form of the stitched fold's mask when every tile carries a mask
and the buffer starts masked. -/
lemma stitchFold_mask_some (tv : Nat → Nat → TileArr) (tw th : Nat)
    (htw : 0 < tw) (hth : 0 < th) (tmv : Nat → Nat → (Nat → Nat → Nat → Bool))
    (hm : ∀ ix iy, (tv ix iy).mask = some (tmv ix iy)) :
    ∀ (l : List (Nat × Nat)) (init : Mosaic) (am : Nat → Nat → Nat → Bool),
      init.mask = some am →
      (stitchFold tv tw th l init).mask
        = some (fun b y x =>
            if (x / tw, y / th) ∈ l then
              tmv (x / tw) (y / th) b (y - y / th * th) (x - x / tw * tw)
            else am b y x) := by
  intro l
  induction l with
  | nil =>
    intro init am ha
    have hstep : stitchFold tv tw th [] init = init := rfl
    have hfun : (fun b y x =>
        if (x / tw, y / th) ∈ ([] : List (Nat × Nat)) then
          tmv (x / tw) (y / th) b (y - y / th * th) (x - x / tw * tw)
        else am b y x) = am := by
      funext b y x
      simp
    rw [hstep, ha, hfun]
  | cons p t ih =>
    intro init am ha
    have hstep : stitchFold tv tw th (p :: t) init
        = stitchFold tv tw th t (stitch_image_tile (tv p.1 p.2) init p.1 p.2 tw th) := rfl
    rw [hstep,
      ih _ _ (stitch_mask_some_eq (tv p.1 p.2) (tmv p.1 p.2) (hm p.1 p.2) init am ha
        p.1 p.2 tw th htw hth)]
    congr 1
    funext b y x
    by_cases hmem : (x / tw, y / th) ∈ t
    · rw [if_pos hmem, if_pos (List.mem_cons_of_mem _ hmem)]
    · rw [if_neg hmem]
      by_cases hp : x / tw = p.1 ∧ y / th = p.2
      · rw [if_pos hp, if_pos (by
          rw [List.mem_cons]
          exact Or.inl (Prod.ext_iff.mpr ⟨hp.1, hp.2⟩))]
        rw [hp.1, hp.2]
      · rw [if_neg hp, if_neg (by
          rw [List.mem_cons]
          rintro (hc | hc)
          · exact hp ⟨congrArg Prod.fst hc, congrArg Prod.snd hc⟩
          · exact hmem hc)]

lemma foldl_min_all_ge : ∀ (t : List Nat) (a : Nat), (∀ x ∈ t, a ≤ x) → t.foldl min a = a := by
  intro t
  induction t with
  | nil => intro a _; rfl
  | cons h t ih =>
    intro a hall
    rw [List.foldl_cons, min_eq_left (hall h (List.mem_cons_self h t))]
    exact ih a fun x hx => hall x (List.mem_cons_of_mem _ hx)

/-- Python `min` of the ascending tile-index list of a row is its base. -/
lemma pyMin_base_range (base n : Nat) (hn : 0 < n) :
    pyMin ((List.range n).map fun i => base + i) = base := by
  obtain ⟨k, rfl⟩ : ∃ k, n = k + 1 := ⟨n - 1, by omega⟩
  rw [List.range_succ_eq_map]
  simp only [List.map_cons, List.map_map]
  show ((List.range k).map ((fun i => base + i) ∘ Nat.succ)).foldl min (base + 0) = base
  rw [Nat.add_zero]
  apply foldl_min_all_ge
  intro x hx
  simp only [List.mem_map, Function.comp, List.mem_range] at hx
  obtain ⟨j, _, rfl⟩ := hx
  omega

lemma le_foldl_max : ∀ (t : List Nat) (a : Nat), a ≤ t.foldl max a := by
  intro t
  induction t with
  | nil => intro a; exact le_refl a
  | cons h t ih =>
    intro a
    rw [List.foldl_cons]
    exact le_trans (le_max_left a h) (ih (max a h))

lemma mem_le_foldl_max : ∀ (t : List Nat) (a x : Nat), x ∈ t → x ≤ t.foldl max a := by
  intro t
  induction t with
  | nil => intro a x hx; cases hx
  | cons h t ih =>
    intro a x hx
    rw [List.foldl_cons]
    rcases List.mem_cons.mp hx with rfl | hmem
    · exact le_trans (le_max_right a x) (le_foldl_max t (max a x))
    · exact ih (max a h) x hmem

lemma foldl_max_mem : ∀ (t : List Nat) (a : Nat), t.foldl max a = a ∨ t.foldl max a ∈ t := by
  intro t
  induction t with
  | nil => intro a; exact Or.inl rfl
  | cons h t ih =>
    intro a
    rw [List.foldl_cons]
    rcases ih (max a h) with heq | hmem
    · rcases max_choice a h with hc | hc
      · exact Or.inl (heq.trans hc)
      · refine Or.inr ?_
        rw [heq, hc]
        exact List.mem_cons_self h t
    · exact Or.inr (List.mem_cons_of_mem _ hmem)

/-- Python `max` of the ascending tile-index list of a row is its last
element. -/
lemma pyMax_base_range (base n : Nat) (hn : 0 < n) :
    pyMax ((List.range n).map fun i => base + i) = base + (n - 1) := by
  obtain ⟨k, rfl⟩ : ∃ k, n = k + 1 := ⟨n - 1, by omega⟩
  rw [List.range_succ_eq_map]
  simp only [List.map_cons, List.map_map]
  show ((List.range k).map ((fun i => base + i) ∘ Nat.succ)).foldl max (base + 0) = base + (k + 1 - 1)
  rw [Nat.add_zero, Nat.add_sub_cancel]
  apply Nat.le_antisymm
  · rcases foldl_max_mem ((List.range k).map ((fun i => base + i) ∘ Nat.succ)) base with h | h
    · rw [h]; omega
    · simp only [List.mem_map, Function.comp, List.mem_range] at h
      obtain ⟨j, hj, heq⟩ := h
      omega
  · rcases Nat.eq_zero_or_pos k with rfl | hk
    · simp
    · have hmem : base + k ∈ (List.range k).map ((fun i => base + i) ∘ Nat.succ) := by
        simp only [List.mem_map, Function.comp, List.mem_range]
        exact ⟨k - 1, by omega, by omega⟩
      exact mem_le_foldl_max _ base _ hmem

/-- Slicing the range-request result: dropping `d` bytes and taking `c` of
them yields the bytes at positions `s + d, ..., s + d + c - 1`. -/
lemma fetch_slice (file : Nat → Nat) (s L d c : Nat) (h : d + c ≤ L + 1) :
    ((fetchRange file s L).drop d).take c = (List.range c).map fun j => file (s + d + j) := by
  apply List.ext_getElem
  · simp only [List.length_take, List.length_drop, List.length_map, List.length_range, fetchRange]
    omega
  · intro i h1 h2
    simp only [fetchRange, List.getElem_take, List.getElem_drop, List.getElem_map,
      List.getElem_range]
    congr 1
    omega

/-- Extracting one tile out of a merged range request recovers exactly the
bytes a direct range request for that tile would deliver, provided the tile's
byte span lies inside the merged span. -/
lemma extract_fetch (f : IFD) (file : Nat → Nat) (lo hi ti : Nat)
    (hlo : f.TileOffsets lo ≤ f.TileOffsets ti)
    (hhi : f.TileOffsets ti + f.TileByteCounts ti ≤ f.TileOffsets hi + f.TileByteCounts hi)
    (hcnt : 1 ≤ f.TileByteCounts ti) :
    extract_tile f
      (fetchRange file (f.TileOffsets lo)
        (f.TileOffsets hi + f.TileByteCounts hi - f.TileOffsets lo - 1))
      ti (f.TileOffsets lo)
    = fetchRange file (f.TileOffsets ti) (f.TileByteCounts ti - 1) := by
  unfold extract_tile
  rw [fetch_slice file (f.TileOffsets lo)
    (f.TileOffsets hi + f.TileByteCounts hi - f.TileOffsets lo - 1)
    (f.TileOffsets ti - f.TileOffsets lo) (f.TileByteCounts ti) (by omega)]
  unfold fetchRange
  have e1 : f.TileByteCounts ti - 1 + 1 = f.TileByteCounts ti := by omega
  have e2 : (fun j => file (f.TileOffsets lo + (f.TileOffsets ti - f.TileOffsets lo) + j))
      = fun j => file (f.TileOffsets ti + j) := by
    funext j
    congr 1
    omega
  rw [e1, e2]

/-- One merged-mode row task stitches exactly the tiles the per-tile path
would stitch at the row's grid positions, provided the tile byte layout is
ordered (offsets and end offsets nondecreasing in the flat tile index, tiles
non-empty). -/
lemma request_merged_tile_row (env : ReadEnv) (m : TileMetadata)
    (hx : m.xmin ≤ m.xmax)
    (hoff : ∀ i j, i ≤ j →
      (env.ifds m.ovr_level).TileOffsets i ≤ (env.ifds m.ovr_level).TileOffsets j)
    (hend : ∀ i j, i ≤ j →
      (env.ifds m.ovr_level).TileOffsets i + (env.ifds m.ovr_level).TileByteCounts i
        ≤ (env.ifds m.ovr_level).TileOffsets j + (env.ifds m.ovr_level).TileByteCounts j)
    (hcnt : ∀ i, 1 ≤ (env.ifds m.ovr_level).TileByteCounts i)
    (hoffm : ∀ i j, i ≤ j →
      (env.maskIfds m.ovr_level).TileOffsets i ≤ (env.maskIfds m.ovr_level).TileOffsets j)
    (hendm : ∀ i j, i ≤ j →
      (env.maskIfds m.ovr_level).TileOffsets i + (env.maskIfds m.ovr_level).TileByteCounts i
        ≤ (env.maskIfds m.ovr_level).TileOffsets j + (env.maskIfds m.ovr_level).TileByteCounts j)
    (hcntm : ∀ i, 1 ≤ (env.maskIfds m.ovr_level).TileByteCounts i)
    (idy : Nat) (arr : Mosaic) :
    request_merged_tile env arr (rowIndices m (env.ifds m.ovr_level).tileCount0 idy) m
      = stitchFold (tileValS env m) m.tile_width m.tile_height
          ((List.range (m.xmax + 1 - m.xmin)).map fun idx => (idx, idy)) arr := by
  have hcols : 0 < m.xmax + 1 - m.xmin := by omega
  have hfun : ((fun t : Nat × Nat × Nat => t.1) ∘ fun idx =>
      ((m.ymin + idy) * (env.ifds m.ovr_level).tileCount0 + (m.xmin + idx), idx, idy))
      = fun i => (m.ymin + idy) * (env.ifds m.ovr_level).tileCount0 + m.xmin + i := by
    funext i
    show (m.ymin + idy) * (env.ifds m.ovr_level).tileCount0 + (m.xmin + i)
      = (m.ymin + idy) * (env.ifds m.ovr_level).tileCount0 + m.xmin + i
    omega
  have hti : (rowIndices m (env.ifds m.ovr_level).tileCount0 idy).map (fun t => t.1)
      = (List.range (m.xmax + 1 - m.xmin)).map
          fun i => (m.ymin + idy) * (env.ifds m.ovr_level).tileCount0 + m.xmin + i := by
    unfold rowIndices
    rw [List.map_map, hfun]
  have hmin : pyMin ((rowIndices m (env.ifds m.ovr_level).tileCount0 idy).map fun t => t.1)
      = (m.ymin + idy) * (env.ifds m.ovr_level).tileCount0 + m.xmin := by
    rw [hti]
    exact pyMin_base_range _ _ hcols
  have hmax : pyMax ((rowIndices m (env.ifds m.ovr_level).tileCount0 idy).map fun t => t.1)
      = (m.ymin + idy) * (env.ifds m.ovr_level).tileCount0 + m.xmin
          + (m.xmax + 1 - m.xmin - 1) := by
    rw [hti]
    exact pyMax_base_range _ _ hcols
  simp only [request_merged_tile, merge_range_requests]
  rw [hmin, hmax]
  simp only [rowIndices, stitchFold, List.foldl_map]
  apply List.foldl_ext
  intro a idx hidx
  rw [List.mem_range] at hidx
  congr 1
  simp only [mergedTile, tileValS, get_tile]
  rw [extract_fetch (env.ifds m.ovr_level) env.file
      ((m.ymin + idy) * (env.ifds m.ovr_level).tileCount0 + m.xmin)
      ((m.ymin + idy) * (env.ifds m.ovr_level).tileCount0 + m.xmin + (m.xmax + 1 - m.xmin - 1))
      ((m.ymin + idy) * (env.ifds m.ovr_level).tileCount0 + (m.xmin + idx))
      (hoff _ _ (by omega)) (hend _ _ (by omega)) (hcnt _),
    extract_fetch (env.maskIfds m.ovr_level) env.file
      ((m.ymin + idy) * (env.ifds m.ovr_level).tileCount0 + m.xmin)
      ((m.ymin + idy) * (env.ifds m.ovr_level).tileCount0 + m.xmin + (m.xmax + 1 - m.xmin - 1))
      ((m.ymin + idy) * (env.ifds m.ovr_level).tileCount0 + (m.xmin + idx))
      (hoffm _ _ (by omega)) (hendm _ _ (by omega)) (hcntm _)]

/-- **C1.** Over the same `TileMetadata`, IFD offsets/byte counts and tile
contents, the per-tile fetch path (`_request_tiles`) and the merged-range
fetch path (`_request_merged_tiles`) produce identical mosaic arrays, and
identical masks when a mask is carried.  The tile byte layout is assumed
ordered by flat tile index (offsets and end offsets nondecreasing, tiles
non-empty), as in a well-formed file. -/
theorem request_tiles_eq_request_merged_tiles (env : ReadEnv) (m : TileMetadata)
    (htw : 0 < m.tile_width) (hth : 0 < m.tile_height) (hx : m.xmin ≤ m.xmax)
    (hoff : ∀ i j, i ≤ j →
      (env.ifds m.ovr_level).TileOffsets i ≤ (env.ifds m.ovr_level).TileOffsets j)
    (hend : ∀ i j, i ≤ j →
      (env.ifds m.ovr_level).TileOffsets i + (env.ifds m.ovr_level).TileByteCounts i
        ≤ (env.ifds m.ovr_level).TileOffsets j + (env.ifds m.ovr_level).TileByteCounts j)
    (hcnt : ∀ i, 1 ≤ (env.ifds m.ovr_level).TileByteCounts i)
    (hoffm : ∀ i j, i ≤ j →
      (env.maskIfds m.ovr_level).TileOffsets i ≤ (env.maskIfds m.ovr_level).TileOffsets j)
    (hendm : ∀ i j, i ≤ j →
      (env.maskIfds m.ovr_level).TileOffsets i + (env.maskIfds m.ovr_level).TileByteCounts i
        ≤ (env.maskIfds m.ovr_level).TileOffsets j + (env.maskIfds m.ovr_level).TileByteCounts j)
    (hcntm : ∀ i, 1 ≤ (env.maskIfds m.ovr_level).TileByteCounts i) :
    request_tiles env m = request_merged_tiles env m := by
  have hflat : ∀ (rows : List Nat) (init : Mosaic),
      rows.foldl (fun arr idy => stitchFold (tileValS env m) m.tile_width m.tile_height
          ((List.range (m.xmax + 1 - m.xmin)).map fun idx => (idx, idy)) arr) init
        = stitchFold (tileValS env m) m.tile_width m.tile_height
            (rows.flatMap fun idy =>
              (List.range (m.xmax + 1 - m.xmin)).map fun idx => (idx, idy))
            init := by
    intro rows
    induction rows with
    | nil => intro init; rfl
    | cons r t ih =>
      intro init
      have happ : ∀ (l1 l2 : List (Nat × Nat)) (i0 : Mosaic),
          stitchFold (tileValS env m) m.tile_width m.tile_height (l1 ++ l2) i0
            = stitchFold (tileValS env m) m.tile_width m.tile_height l2
                (stitchFold (tileValS env m) m.tile_width m.tile_height l1 i0) := by
        intro l1 l2 i0
        unfold stitchFold
        rw [List.foldl_append]
      rw [List.foldl_cons, List.flatMap_cons, happ, ih]
  have hR : request_merged_tiles env m
      = stitchFold (tileValS env m) m.tile_width m.tile_height
          ((List.range (m.ymax + 1 - m.ymin)).flatMap
            fun idy => (List.range (m.xmax + 1 - m.xmin)).map fun idx => (idx, idy))
          (init_array env.add_mask m) := by
    simp only [request_merged_tiles]
    rw [← hflat]
    exact List.foldl_ext _ _ _ fun arr idy _ =>
      request_merged_tile_row env m hx hoff hend hcnt hoffm hendm hcntm idy arr
  have hL : request_tiles env m
      = stitchFold (tileValS env m) m.tile_width m.tile_height (gridKeys m)
          (init_array env.add_mask m) := rfl
  have hmemA : ∀ q : Nat × Nat, q ∈ gridKeys m ↔
      (q.1 < m.xmax + 1 - m.xmin ∧ q.2 < m.ymax + 1 - m.ymin) := by
    intro q
    simp only [gridKeys, List.mem_flatMap, List.mem_map, List.mem_range]
    constructor
    · rintro ⟨ix, hix, iy, hiy, rfl⟩
      exact ⟨hix, hiy⟩
    · rintro ⟨h1, h2⟩
      exact ⟨q.1, h1, q.2, h2, rfl⟩
  have hmemB : ∀ q : Nat × Nat,
      q ∈ ((List.range (m.ymax + 1 - m.ymin)).flatMap
          fun idy => (List.range (m.xmax + 1 - m.xmin)).map fun idx => (idx, idy)) ↔
      (q.1 < m.xmax + 1 - m.xmin ∧ q.2 < m.ymax + 1 - m.ymin) := by
    intro q
    simp only [List.mem_flatMap, List.mem_map, List.mem_range]
    constructor
    · rintro ⟨iy, hiy, ix, hix, rfl⟩
      exact ⟨hix, hiy⟩
    · rintro ⟨h1, h2⟩
      exact ⟨q.2, h2, q.1, h1, rfl⟩
  rw [hL, hR]
  apply Mosaic.ext
  · rw [(stitchFold_shape _ _ _ _ _).1, (stitchFold_shape _ _ _ _ _).1]
  · rw [(stitchFold_shape _ _ _ _ _).2.1, (stitchFold_shape _ _ _ _ _).2.1]
  · rw [(stitchFold_shape _ _ _ _ _).2.2.1, (stitchFold_shape _ _ _ _ _).2.2.1]
  · rw [(stitchFold_shape _ _ _ _ _).2.2.2, (stitchFold_shape _ _ _ _ _).2.2.2]
  · funext b y x
    rw [stitchFold_data _ _ _ htw hth, stitchFold_data _ _ _ htw hth]
    by_cases hc : ((x / m.tile_width, y / m.tile_height) : Nat × Nat) ∈ gridKeys m
    · rw [if_pos hc, if_pos ((hmemB _).mpr ((hmemA _).mp hc))]
    · rw [if_neg hc, if_neg fun hc2 => hc ((hmemA _).mpr ((hmemB _).mp hc2))]
  · by_cases ham : env.add_mask
    · have hinit : (init_array env.add_mask m).mask = some (fun _ _ _ => false) := by
        simp [init_array, ham]
      have htm : ∀ ix iy, (tileValS env m ix iy).mask = some (tile_mask env m ix iy) := by
        intro ix iy
        simp only [tileValS, get_tile, ham, if_true]
        rfl
      rw [stitchFold_mask_some _ _ _ htw hth (tile_mask env m) htm _ _ _ hinit,
        stitchFold_mask_some _ _ _ htw hth (tile_mask env m) htm _ _ _ hinit]
      congr 1
      funext b y x
      by_cases hc : ((x / m.tile_width, y / m.tile_height) : Nat × Nat) ∈ gridKeys m
      · rw [if_pos hc, if_pos ((hmemB _).mpr ((hmemA _).mp hc))]
      · rw [if_neg hc, if_neg fun hc2 => hc ((hmemA _).mpr ((hmemB _).mp hc2))]
    · have htm0 : ∀ ix iy, (tileValS env m ix iy).mask = none := by
        intro ix iy
        simp [tileValS, get_tile, ham]
      rw [stitchFold_mask_none _ _ _ htm0, stitchFold_mask_none _ _ _ htm0]

/-- Witness for `request_tiles_eq_request_merged_tiles`: a concrete 2×2 tile
request over a linear byte layout. -/
theorem request_tiles_eq_request_merged_tiles_witness :
    request_tiles
      (ReadEnv.mk (fun i => i) (fun bytes => fun _ _ _ => (bytes.getD 0 0 : Int))
        (fun _ => fun _ _ => true) false none
        (fun _ => IFD.mk (fun i => 10 * i) (fun _ => 10) 2)
        (fun _ => IFD.mk (fun i => 10 * i) (fun _ => 10) 2))
      (TileMetadata.mk 0 0 2 2 1 1 0 0 1 1 1 0 0 [] [])
    = request_merged_tiles
      (ReadEnv.mk (fun i => i) (fun bytes => fun _ _ _ => (bytes.getD 0 0 : Int))
        (fun _ => fun _ _ => true) false none
        (fun _ => IFD.mk (fun i => 10 * i) (fun _ => 10) 2)
        (fun _ => IFD.mk (fun i => 10 * i) (fun _ => 10) 2))
      (TileMetadata.mk 0 0 2 2 1 1 0 0 1 1 1 0 0 [] []) :=
  request_tiles_eq_request_merged_tiles _ _ (by decide) (by decide) (by decide)
    (by intro i j h; show 10 * i ≤ 10 * j; omega)
    (by intro i j h; show 10 * i + 10 ≤ 10 * j + 10; omega)
    (by intro i; show 1 ≤ 10; omega)
    (by intro i j h; show 10 * i ≤ 10 * j; omega)
    (by intro i j h; show 10 * i + 10 ≤ 10 * j + 10; omega)
    (by intro i; show 1 ≤ 10; omega)

end Aiocogeo
